import Mathlib

/-!
Verification of the evaluation-output pipeline (edflow/eval/pipeline.py).

Python strings are embedded as lists of characters (`PyStr`), Python dicts as
association lists in insertion order, numpy float values as rationals, and
exceptions as an explicit error type threaded through `Except`.  File-system
side effects (written files, memory-mapped label arrays) are recorded as
explicit components of the returned values.
-/

namespace EvalPipeline

/-- Python strings, embedded as lists of characters. -/
abbrev PyStr := List Char

/-- Convenience conversion from a Lean string literal to a `PyStr`. -/
def pstr (s : String) : PyStr := s.data

/-- The Python exception kinds raised by the code under study. -/
inductive PyErr where
  | indexError
  | keyError
  | valueError
  | nameError
  | notImplementedError
  | typeError
  deriving DecidableEq, Repr

/-! ### Association lists: the embedding of Python dicts

Keys are looked up left to right; assignment replaces the value at an existing
key in place (keeping its position, as Python dicts do) or appends a new entry.
-/

/-- Dict lookup: `d[k]` as an `Option`. -/
def lookupA {κ α : Type} [DecidableEq κ] : List (κ × α) → κ → Option α
  | [], _ => none
  | (k', v') :: rest, k => if k' = k then some v' else lookupA rest k

/-- Dict assignment `d[k] = v`: replaces in place or appends. -/
def setA {κ α : Type} [DecidableEq κ] : List (κ × α) → κ → α → List (κ × α)
  | [], k, v => [(k, v)]
  | (k', v') :: rest, k, v =>
    if k' = k then (k', v) :: rest else (k', v') :: setA rest k v

/-- Dict deletion `del d[k]`: removes the entry at `k` (first occurrence). -/
def removeA {κ α : Type} [DecidableEq κ] : List (κ × α) → κ → List (κ × α)
  | [], _ => []
  | (k', v') :: rest, k => if k' = k then rest else (k', v') :: removeA rest k

/-- Python `d.update(e)`: assigns every entry of `e` into `d`, in order.
Used at `EvalHook.__init__` (callbacks.update(config_cbs)) and in
`standalone_eval_meta_dset` (callbacks.update(config_callbacks)). -/
def dictUpdate {κ α : Type} [DecidableEq κ] (d e : List (κ × α)) : List (κ × α) :=
  e.foldl (fun acc kv => setA acc kv.1 kv.2) d

/-! ### String utilities: split, join, replace, path join -/

/-- Python `s.split(sep)` for a single-character separator. -/
def splitOnC (c : Char) : PyStr → List PyStr
  | [] => [[]]
  | x :: xs =>
    if x = c then [] :: splitOnC c xs
    else (x :: (splitOnC c xs).headD []) :: (splitOnC c xs).tail

/-- Python `sep.join(pieces)` for a single-character separator. -/
def joinC (c : Char) : List PyStr → PyStr
  | [] => []
  | [s] => s
  | s :: rest => s ++ c :: joinC c rest

/-- Python `s.replace("/", "--")`, as used on label keys and partition names. -/
def replaceSlash : PyStr → PyStr
  | [] => []
  | x :: xs => if x = '/' then '-' :: '-' :: replaceSlash xs else x :: replaceSlash xs

/-- `os.path.join` for two components: an absolute second component wins;
joining onto the empty string or onto a string already ending in a slash
inserts no separator. -/
def pathJoin (a b : PyStr) : PyStr :=
  if b.headD ' ' = '/' then b
  else if a = [] ∨ a.getLast? = some '/' then a ++ b
  else a ++ '/' :: b

/-! ### Decimal formatting and parsing

`natCharsAux` produces the decimal digits of `n` (most significant first,
empty for 0); the fuel argument makes the recursion structural so that the
kernel can evaluate it.  `format06` is the embedding of the Python format
spec used in `save_output`: zero-fill to width 6. -/

/-- Decimal digit characters of `n`, most significant first ( `[]` for 0).
The first argument is fuel; `natToChars` supplies `n` itself, which is
always enough. -/
def natCharsAux : Nat → Nat → PyStr
  | 0, _ => []
  | fuel + 1, n =>
    if n = 0 then []
    else natCharsAux fuel (n / 10) ++ [Nat.digitChar (n % 10)]

/-- Decimal digit characters of `n`, most significant first (empty for 0). -/
def natToChars (n : Nat) : PyStr := natCharsAux n n

/-- Python `str(n)` for a natural number. -/
def natRepr (n : Nat) : PyStr := if n = 0 then pstr "0" else natToChars n

/-- The index format used in artifact names: decimal, zero-filled to width 6
(six digits for indices below 10^6, full decimal beyond). -/
def format06 (n : Nat) : PyStr :=
  List.replicate (6 - (natToChars n).length) '0' ++ natToChars n

/-- Model of Python `int(s)` restricted to the unsigned decimal strings the
encoder produces: succeeds exactly on nonempty all-digit strings (signs and
surrounding whitespace, which `int` also accepts, never occur in encoded
artifact names). -/
def toNatC (cs : PyStr) : Option Nat :=
  if cs ≠ [] ∧ cs.all Char.isDigit then
    some (cs.foldl (fun a c => a * 10 + (c.toNat - 48)) 0)
  else none

/-! ### Artifact saver (`determine_saver`, `determine_loader`, `save_example`) -/

/-- The values `save_example` can be handed: a numpy array (only its shape
matters for dispatch; pixel or payload data never influences any claim),
a Python string, or a value of any other type (identified by its type name,
which only feeds the NotImplementedError message). -/
inductive Datum where
  | arr (shape : List Nat)
  | str (s : PyStr)
  | other (tyname : PyStr)
  deriving DecidableEq

/-- The concrete saver functions of the module.  `txt_saver` is absent
because the module never defines it. -/
inductive SaverTag where
  | image_saver
  | np_saver
  deriving DecidableEq

/-- `isimage`: a 3-D array whose last dimension is 1, 3 or 4. -/
def isimage (shape : List Nat) : Bool :=
  shape.length = 3 && (shape.getLastD 0 = 1 || shape.getLastD 0 = 3 || shape.getLastD 0 = 4)

/-- `determine_saver`.  For an `np.ndarray`: `image_saver`/png when `isimage`,
else `np_saver`/npy.  For a `str` the source line `return txt_saver, "txt"`
reads the global name `txt_saver`, which is defined nowhere in the module, so
the call raises `NameError`.  Any other type raises `NotImplementedError`. -/
def determine_saver : Datum → Except PyErr (SaverTag × PyStr)
  | .arr shape =>
    if isimage shape then .ok (.image_saver, pstr "png") else .ok (.np_saver, pstr "npy")
  | .str _ => .error .nameError
  | .other _ => .error .notImplementedError

/-- `determine_loader`: png is loaded by the image loader, npy by the raw
numpy loader, and every other extension raises `ValueError`. -/
def determine_loader (ext : PyStr) : Except PyErr PyStr :=
  if ext = pstr "png" then .ok (pstr "image")
  else if ext = pstr "npy" then .ok (pstr "np")
  else .error .valueError

/-- The artifact file name template of `save_output` up to the extension:
field name, underscore, the index zero-filled to width 6, and a trailing dot.
The extension hole of the Python template sits at the very end of the path,
so `save_example` fills it by appending the extension. -/
def savename_base (field : PyStr) (idx : Nat) : PyStr :=
  field ++ '_' :: format06 idx ++ ['.']

/-- `save_example`: chooses the saver, looks up the loader name (both before
anything is written, so their exceptions abort the write), fills the
extension into the path, and writes the file.  The write is returned as a
(path, saver) record instead of performing I/O. -/
def save_example (base : PyStr) (datum : Datum) :
    Except PyErr (PyStr × PyStr × (PyStr × SaverTag)) :=
  match determine_saver datum with
  | .error e => .error e
  | .ok (saver, ending) =>
    match determine_loader ending with
    | .error e => .error e
    | .ok loader_name =>
      let savepath := base ++ ending
      .ok (savepath, loader_name, (savepath, saver))

/-! ### Label values

Label data travels through `after_step` either as small numeric values popped
from the step results or as artifact path strings merged in from the output
writer.  Numeric labels are embedded as rationals (each value a scalar; the
per-example shape of scalar labels is the empty shape, so every label array
has shape dataset-length).  A freshly created `np.memmap` in mode w+ is
zero-initialised, which is the allocation-time fill value below. -/

/-- The dtypes occurring for label values in this model: numpy float for
numeric labels, a unicode string dtype for stored paths.  The exact numpy
dtype string (for example float64 versus a sized unicode code) is abstracted
to a fixed name per kind. -/
inductive LDtype where
  | float64
  | unicode
  deriving DecidableEq

/-- A single label value: a numeric scalar or a string. -/
inductive LVal where
  | num (q : ℚ)
  | str (s : PyStr)
  deriving DecidableEq

/-- The dtype inferred from a value (`example.dtype` in the source). -/
def LVal.dtype : LVal → LDtype
  | .num _ => .float64
  | .str _ => .unicode

/-- The zero value a fresh memory map holds in every slot. -/
def LDtype.zero : LDtype → LVal
  | .float64 => .num 0
  | .unicode => .str []

/-- The dtype name embedded in the label-array file name. -/
def LDtype.tyname : LDtype → PyStr
  | .float64 => pstr "float64"
  | .unicode => pstr "str_"

/-- The dtype of a (homogeneous) label array, read off its first slot. -/
def arrDtype (arr : List LVal) : Option LDtype := arr.head?.map LVal.dtype

/-- The label-array file name of `EvalHook.after_step`: under
`save_root/labels`, the field name with slashes replaced by double dashes,
then the shape dimensions joined by x (for scalar labels just the dataset
length), then the dtype name, the three parts separated by the marker
dash-star-dash, with extension npy. -/
def mmapName (save_root : PyStr) (k : PyStr) (dsLen : Nat) (d : LDtype) : PyStr :=
  pathJoin (pathJoin save_root (pstr "labels"))
    (replaceSlash k ++ pstr "-*-" ++ natRepr dsLen ++ pstr "-*-" ++ d.tyname ++ pstr ".npy")

/-! ### Step results (`last_results`) and keypath access

Step results map keys to either the per-field batched artifact data (behind
the hook keypath, default step_ops) or a field-to-batched-label-values
mapping (behind the labels keypath).  Keypaths are modelled as single
segments, which covers the defaults the hook is run with. -/

/-- The per-field batched artifact data behind the hook keypath: field name
to one `Datum` per example of the batch. -/
abbrev Example := List (PyStr × List Datum)

/-- A value stored in the step-results dict. -/
inductive RVal where
  | ex (e : Example)
  | labels (l : List (PyStr × List LVal))
  deriving DecidableEq

/-- Modelled from the spec: the external keypath lookup `retrieve` (the
configuration/keypath utility is outside src), restricted to the
single-segment keypaths the hook uses; with no default it raises `KeyError`
when the key is missing.  A non-mapping value where batched artifact data is
expected is a type confusion outside the modelled fragment and reported as
`TypeError`. -/
def retrieveEx (results : List (PyStr × RVal)) (k : PyStr) : Except PyErr Example :=
  match lookupA results k with
  | some (.ex e) => .ok e
  | some (.labels _) => .error .typeError
  | none => .error .keyError

/-- Modelled from the spec: the external `pop_keypath` utility (outside src)
with default empty mapping: returns the label mapping at `k` and the results
with `k` removed, or the empty mapping and the unchanged results when `k` is
absent. -/
def pop_keypath (results : List (PyStr × RVal)) (k : PyStr) :
    Except PyErr ((List (PyStr × List LVal)) × List (PyStr × RVal)) :=
  match lookupA results k with
  | none => .ok ([], results)
  | some (.labels l) => .ok (l, removeA results k)
  | some (.ex _) => .error .typeError

/-- Step one of `after_step`: pop the label values when a labels keypath is
configured, else use an empty mapping. -/
def popLabels (lk : Option PyStr) (results : List (PyStr × RVal)) :
    Except PyErr ((List (PyStr × List LVal)) × List (PyStr × RVal)) :=
  match lk with
  | none => .ok ([], results)
  | some k => pop_keypath results k

/-! ### Output writer (`save_output`) -/

/-- What `save_output` produces: the index-to-(field:loader -> path) mapping
it returns, the files it wrote, and the example mapping after the partition
keys were deleted from it (the deletion is visible to the caller because
`_delget` mutates the dict). -/
structure SaveOutputRes where
  path_dicts : List (Nat × List (PyStr × PyStr))
  files : List (PyStr × SaverTag)
  remaining : Example
  deriving DecidableEq

/-- The string form of a partition value as interpolated into the
directory name (string values appear verbatim; other types would appear via
their str() form, abstracted here since partitions are string-valued). -/
def subValStr : Datum → PyStr
  | .str s => s
  | .arr _ => pstr "<array>"
  | .other t => t

/-- The inner loop of the partition pass: for each example position, append
the key:value segment (slashes replaced) to the subdirectory of that position.
Assigning past the end of the list raises `IndexError`, as the Python list
assignment would when more partition values than indices arrive. -/
def assignSubDirs (subk : PyStr) : List PyStr → List Datum → Nat → Except PyErr (List PyStr)
  | sub_dirs, [], _ => .ok sub_dirs
  | sub_dirs, v :: vs, i =>
    if h : i < sub_dirs.length then
      let name := replaceSlash (subk ++ ':' :: subValStr v)
      assignSubDirs subk (sub_dirs.set i (pathJoin (sub_dirs.get ⟨i, h⟩) name)) vs (i + 1)
    else .error .indexError

/-- The partition pass of `save_output`: `_delget` each partition key from
the example (KeyError when absent) and extend the subdirectory
path of each example with its key:value segment, in list order. -/
def applySubKeys : Example → List PyStr → List PyStr → Except PyErr (Example × List PyStr)
  | ex, sub_dirs, [] => .ok (ex, sub_dirs)
  | ex, sub_dirs, subk :: rest =>
    match lookupA ex subk with
    | none => .error .keyError
    | some sub_vals =>
      match assignSubDirs subk sub_dirs sub_vals 0 with
      | .error e => .error e
      | .ok sd => applySubKeys (removeA ex subk) sd rest

/-- The per-example field loop of `save_output`: route each remaining field
through `save_example` under the root of the example, collecting the
field:loader -> path entries and the written files. -/
def saveFields (ex : Example) (i : Nat) (idx : Nat) (r : PyStr) :
    Except PyErr (List (PyStr × PyStr) × List (PyStr × SaverTag)) :=
  ex.foldlM
    (fun acc nf =>
      match nf.2.get? i with
      | none => .error .indexError
      | some datum =>
        match save_example (pathJoin r (savename_base nf.1 idx)) datum with
        | .error e => .error e
        | .ok (path, loader, w) =>
          .ok (acc.1 ++ [(nf.1 ++ ':' :: loader, path)], acc.2 ++ [w]))
    ([], [])

/-- The outer example loop of `save_output`, over the zip of the indices with
the per-example roots. -/
def writeExamples (ex : Example) :
    List (Nat × PyStr) → Nat → List (Nat × List (PyStr × PyStr)) → List (PyStr × SaverTag) →
    Except PyErr (List (Nat × List (PyStr × PyStr)) × List (PyStr × SaverTag))
  | [], _, pds, fs => .ok (pds, fs)
  | (idx, r) :: rest, i, pds, fs =>
    match saveFields ex i idx r with
    | .error e => .error e
    | .ok (pd, ws) => writeExamples ex rest (i + 1) (setA pds idx pd) (fs ++ ws)

/-- `save_output`: retrieve the example mapping behind the keypath, resolve
the partition subdirectories (deleting the partition keys), build the
per-example roots (with the bare root appended once more, which the zip with
the indices then drops), and write every remaining field of every example. -/
def save_output (root : PyStr) (results : List (PyStr × RVal)) (index : List Nat)
    (sub_dir_keys : List PyStr) (keypath : PyStr) : Except PyErr SaveOutputRes :=
  match retrieveEx results keypath with
  | .error e => .error e
  | .ok ex =>
    match applySubKeys ex (List.replicate index.length []) sub_dir_keys with
    | .error e => .error e
    | .ok (ex', sub_dirs) =>
      let roots := sub_dirs.map (fun sd => pathJoin root sd) ++ [root]
      match writeExamples ex' (index.zip roots) 0 [] [] with
      | .error e => .error e
      | .ok (pds, fs) => .ok ⟨pds, fs, ex'⟩

/-! ### Label aggregator (lines 234-262 of `EvalHook.after_step`) -/

/-- Merge the stored paths into the label values: for each index, append the
stored path of each field (as a string value) to the list of that field, creating the
field with an empty list first when absent. -/
def mergePaths (label_vals : List (PyStr × List LVal))
    (path_dicts : List (Nat × List (PyStr × PyStr))) (idxs : List Nat) :
    Except PyErr (List (PyStr × List LVal)) :=
  idxs.foldlM
    (fun lv idx =>
      match lookupA path_dicts idx with
      | none => .error .keyError
      | some pd =>
        .ok (pd.foldl (fun lv kp => setA lv kp.1 ((lookupA lv kp.1).getD [] ++ [LVal.str kp.2])) lv))
    label_vals

/-- The allocation pass (run only when `label_arrs is None`): for each field
of the label values, infer the dtype from the first value (IndexError on an
empty batch), create a zero-filled array of dataset length backed by a file
whose name embeds field, shape and dtype, and return the arrays plus the
created file names. -/
def allocate_arrays (dsLen : Nat) (save_root : PyStr) (lv : List (PyStr × List LVal)) :
    Except PyErr (List (PyStr × List LVal) × List PyStr) :=
  lv.foldlM
    (fun acc kv =>
      match kv.2.head? with
      | none => .error .indexError
      | some v0 =>
        .ok (acc.1 ++ [(kv.1, List.replicate dsLen (LVal.dtype v0).zero)],
             acc.2 ++ [mmapName save_root kv.1 dsLen v0.dtype]))
    ([], [])

/-- One slot assignment `arr[idx] = v` on a memory-mapped array.  Modelled
from the spec for the numpy parts: an out-of-range index raises `IndexError`
and a value whose dtype disagrees with the array (LabelShapeMismatch
in the spec) raises `ValueError`. -/
def setSlot (arr : List LVal) (idx : Nat) (v : LVal) : Except PyErr (List LVal) :=
  if idx < arr.length then
    if arrDtype arr = some v.dtype then .ok (arr.set idx v) else .error .valueError
  else .error .indexError

/-- The inner write loop over `enumerate(idxs)`: position `i` of the value
list is written to slot `idxs[i]`; a value list shorter than the index batch
raises `IndexError`. -/
def writeSeqAux (vals : List LVal) : List LVal → Nat → List Nat → Except PyErr (List LVal)
  | arr, _, [] => .ok arr
  | arr, i, idx :: rest =>
    match vals.get? i with
    | none => .error .indexError
    | some v =>
      match setSlot arr idx v with
      | .error e => .error e
      | .ok arr' => writeSeqAux vals arr' (i + 1) rest

/-- Write the batch of values of one field into its label array. -/
def writeSeq (arr : List LVal) (vals : List LVal) (idxs : List Nat) : Except PyErr (List LVal) :=
  writeSeqAux vals arr 0 idxs

/-- The write pass over all fields of the label values: looking up a field
with no allocated array raises `KeyError` (`self.label_arrs[k]`). -/
def label_write (arrs : List (PyStr × List LVal)) (lv : List (PyStr × List LVal))
    (idxs : List Nat) : Except PyErr (List (PyStr × List LVal)) :=
  lv.foldlM
    (fun arrs kv =>
      match lookupA arrs kv.1 with
      | none => .error .keyError
      | some arr =>
        match writeSeq arr kv.2 idxs with
        | .error e => .error e
        | .ok arr' => .ok (setA arrs kv.1 arr'))
    arrs

/-! ### `EvalHook.after_step` -/

/-- The hook configuration relevant to `after_step`: the labels keypath
(`labels_key`), the results keypath, the partition keys, the dataset length
and the output root. -/
structure HookCfg where
  lk : Option PyStr
  keypath : PyStr
  sdks : List PyStr
  dsLen : Nat
  save_root : PyStr

/-- What one `after_step` call produces: the label arrays afterwards, the
label-array files created by this call (empty when the arrays already
existed), the artifact files written, and the returned path dicts. -/
structure AfterStepRes where
  label_arrs : List (PyStr × List LVal)
  mmapNames : List PyStr
  files : List (PyStr × SaverTag)
  path_dicts : List (Nat × List (PyStr × PyStr))
  deriving DecidableEq

/-- `EvalHook.after_step`: pop the label values, save the outputs, merge the
stored paths into the label values keyed by field, touch
`path_dicts[idxs[0]]` (IndexError on an empty index batch), allocate the
label arrays when this is the first call of the epoch, then write each
value to the slot of its dataset index. -/
def after_step (cfg : HookCfg) (label_arrs : Option (List (PyStr × List LVal)))
    (last_results : List (PyStr × RVal)) (idxs : List Nat) : Except PyErr AfterStepRes :=
  match popLabels cfg.lk last_results with
  | .error e => .error e
  | .ok (label_vals, results) =>
    match save_output cfg.save_root results idxs cfg.sdks cfg.keypath with
    | .error e => .error e
    | .ok so =>
      match mergePaths label_vals so.path_dicts idxs with
      | .error e => .error e
      | .ok lv =>
        match idxs with
        | [] => .error .indexError
        | idx0 :: _ =>
          match lookupA so.path_dicts idx0 with
          | none => .error .keyError
          | some _ =>
            let alloc : Except PyErr (List (PyStr × List LVal) × List PyStr) :=
              match label_arrs with
              | none => allocate_arrays cfg.dsLen cfg.save_root lv
              | some a => .ok (a, [])
            match alloc with
            | .error e => .error e
            | .ok (arrs, names) =>
              match label_write arrs lv idxs with
              | .error e => .error e
              | .ok arrs' => .ok ⟨arrs', names, so.files, so.path_dicts⟩

/-! ### `EvalHook.at_exception` and `save_meta` -/

/-- The run-descriptor file: only its completion marking matters to the
claims.  `incomplete` is true when the description carries the
an-exception-occured warning block. -/
structure MetaFile where
  incomplete : Bool
  deriving DecidableEq

/-- The hook state relevant to the failure path: whether `before_epoch` ran
far enough to set the output root, whether the exception flag attribute was
set, the descriptor on disk, and the already-written artifacts and label
arrays. -/
structure EHState where
  hasRoot : Bool
  exceptionOccured : Bool
  metaFile : Option MetaFile
  artifacts : List (PyStr × SaverTag)
  labelArrs : List (PyStr × List LVal)
  deriving DecidableEq

/-- The descriptor content `save_meta` writes: marked incomplete exactly when
the exception flag attribute is set. -/
def save_meta_file (s : EHState) : MetaFile := ⟨s.exceptionOccured⟩

/-- What `at_exception` produces: the state afterwards, the descriptor
writes performed during the call, and whether the incomplete-data warning
was logged. -/
structure AtExcRes where
  state : EHState
  metaWrites : List MetaFile
  warningLogged : Bool
  deriving DecidableEq

/-- `EvalHook.at_exception`: set the exception flag, write the descriptor if
the root attribute exists, and log the incomplete-data warning (the log line
sits outside the root check and always runs).  The function neither catches
nor rethrows anything: the in-flight exception stays with the external loop. -/
def at_exception (s : EHState) : AtExcRes :=
  let s1 : EHState := { s with exceptionOccured := true }
  if s1.hasRoot then
    let m := save_meta_file s1
    { state := { s1 with metaFile := some m }, metaWrites := [m], warningLogged := true }
  else
    { state := s1, metaWrites := [], warningLogged := true }

/-! ### `TemplateEvalHook`

The template hook gates every lifecycle method behind an `_active` flag; the
delegated `super()` calls (which do all writing, descriptor finalisation and
callback running) are recorded as a trace. -/

/-- The lifecycle methods of the parent `EvalHook` a `TemplateEvalHook` can
delegate to. -/
inductive SuperCall where
  | beforeEpoch
  | beforeStep
  | afterStep
  | afterEpoch
  | atException
  deriving DecidableEq

/-- The template-hook state: the `_active` flag plus the trace of delegated
parent calls. -/
structure TState where
  active : Bool
  superCalls : List SuperCall
  deriving DecidableEq

/-- A lifecycle event delivered by the driving loop.  The payload of
`afterStep` is the value `retrieve(last_results, keypath, default=tmp)`
finds: `none` when the keypath is missing (the sentinel default), `some none`
when it holds Python None, `some (some ())` when it holds a real result. -/
inductive TEvent where
  | beforeEpoch
  | beforeStep
  | afterStep (kpVal : Option (Option Unit))
  | afterEpoch
  | atException
  deriving DecidableEq

/-- The deactivation test of `TemplateEvalHook.after_step`: the retrieved
value is the missing-key sentinel or None. -/
def isNoneOrMissing : Option (Option Unit) → Bool
  | some (some _) => false
  | _ => true

/-- One lifecycle call on a `TemplateEvalHook`. -/
def tStep (s : TState) : TEvent → TState
  | .beforeEpoch => { active := true, superCalls := s.superCalls ++ [.beforeEpoch] }
  | .beforeStep =>
    if s.active then { s with superCalls := s.superCalls ++ [.beforeStep] } else s
  | .afterStep v =>
    let s1 := if isNoneOrMissing v then { s with active := false } else s
    if s1.active then { s1 with superCalls := s1.superCalls ++ [.afterStep] } else s1
  | .afterEpoch =>
    if s.active then { s with superCalls := s.superCalls ++ [.afterEpoch] } else s
  | .atException =>
    if s.active then { s with superCalls := s.superCalls ++ [.atException] } else s

/-- A sequence of lifecycle calls. -/
def tRun (s : TState) : List TEvent → TState
  | [] => s
  | e :: evs => tRun (tStep s e) evs

/-! ### Callback merging -/

/-- The callback merge of `EvalHook.__init__` and of
`standalone_eval_meta_dset`: the explicitly passed callbacks dict is updated
with the callback references found in the config, so config entries are
written over explicit ones.  Values are the (not yet loaded) callback
references. -/
def update_callbacks (callbacks : List (PyStr × PyStr)) (config_cbs : List (PyStr × PyStr)) :
    List (PyStr × PyStr) :=
  dictUpdate callbacks config_cbs

/-! ### `decompose_name` and `is_loadable` -/

/-- The full artifact file name produced by `save_output`/`save_example`:
field, underscore, zero-filled index, dot, extension. -/
def encode_name (field : PyStr) (idx : Nat) (ext : PyStr) : PyStr :=
  savename_base field idx ++ ext

/-- `decompose_name`: split on underscores, the piece after the last
underscore must be index-dot-extension; the field is the rejoin of the
leading pieces.  The source wraps the body in try/except and re-raises, so
failures (an unpacking of the dot-split into other than two parts, a
non-numeric index) surface as `ValueError`. -/
def decompose_name (name : PyStr) : Except PyErr (Nat × PyStr × PyStr) :=
  match (splitOnC '_' name).getLast? with
  | none => .error .valueError
  | some rest =>
    let datum_name := joinC '_' (splitOnC '_' name).dropLast
    match splitOnC '.' rest with
    | [index, ending] =>
      match toNatC index with
      | some i => .ok (i, datum_name, ending)
      | none => .error .valueError
    | _ => .error .valueError

/-- The loadable artifact extensions. -/
def LOADABLE_EXTS : List PyStr := [pstr "png", pstr "npy"]

/-- `is_loadable`: a name with no dot is not loadable; with dots, the split
on dots must unpack into exactly a stem and an extension (more than one dot
raises `ValueError`), the extension must be loadable and the stem must
contain exactly one underscore. -/
def is_loadable (filename : PyStr) : Except PyErr Bool :=
  if '.' ∈ filename then
    match splitOnC '.' filename with
    | [name, ext] =>
      if ¬ (ext ∈ LOADABLE_EXTS) then .ok false
      else if name.count '_' ≠ 1 then .ok false
      else .ok true
    | _ => .error .valueError
  else .ok false

/-! ### Statement-side helpers (used only to phrase theorems) -/

/-- The dtype of the first value of a list, defaulting to float64; statement
helper for describing `allocate_arrays` results. -/
def headDtype (l : List LVal) : LDtype :=
  match l.head? with
  | some v => v.dtype
  | none => .float64

/-! ## Theorems -/

/-! ### Association-list lemmas -/

theorem lookupA_setA_self {κ α : Type} [DecidableEq κ] (d : List (κ × α)) (k : κ) (v : α) :
    lookupA (setA d k v) k = some v := by
  induction d with
  | nil => simp [setA, lookupA]
  | cons kv rest ih =>
    by_cases h : kv.1 = k
    · simp [setA, lookupA, h]
    · simpa [setA, lookupA, h] using ih

theorem lookupA_setA_ne {κ α : Type} [DecidableEq κ] (d : List (κ × α)) (k k' : κ) (v : α)
    (h : k' ≠ k) : lookupA (setA d k' v) k = lookupA d k := by
  induction d with
  | nil => simp [setA, lookupA, h]
  | cons kv rest ih =>
    obtain ⟨a, b⟩ := kv
    by_cases h2 : a = k'
    · subst h2
      simp [setA, lookupA, h]
    · by_cases h3 : a = k
      · subst h3
        simp [setA, lookupA, h2, Ne.symm h]
      · simp [setA, lookupA, h2, h3, ih]

theorem lookupA_eq_none_of_not_mem {κ α : Type} [DecidableEq κ] (e : List (κ × α)) (k : κ)
    (h : k ∉ e.map Prod.fst) : lookupA e k = none := by
  induction e with
  | nil => rfl
  | cons kv rest ih =>
    simp only [List.map_cons, List.mem_cons, not_or] at h
    simp [lookupA, Ne.symm h.1, ih h.2]

theorem lookupA_dictUpdate_none {κ α : Type} [DecidableEq κ] (d e : List (κ × α)) (k : κ)
    (h : lookupA e k = none) : lookupA (dictUpdate d e) k = lookupA d k := by
  induction e generalizing d with
  | nil => rfl
  | cons kv rest ih =>
    obtain ⟨a, b⟩ := kv
    by_cases h2 : a = k
    · simp [lookupA, h2] at h
    · simp only [lookupA, h2, if_false] at h
      calc lookupA (dictUpdate d ((a, b) :: rest)) k
          = lookupA (dictUpdate (setA d a b) rest) k := by simp [dictUpdate]
        _ = lookupA (setA d a b) k := ih (setA d a b) h
        _ = lookupA d k := lookupA_setA_ne d k a b h2

theorem lookupA_dictUpdate_some {κ α : Type} [DecidableEq κ] (d e : List (κ × α)) (k : κ) (v : α)
    (hn : (e.map Prod.fst).Nodup) (h : lookupA e k = some v) :
    lookupA (dictUpdate d e) k = some v := by
  induction e generalizing d with
  | nil => simp [lookupA] at h
  | cons kv rest ih =>
    obtain ⟨a, b⟩ := kv
    simp only [List.map_cons, List.nodup_cons] at hn
    by_cases h2 : a = k
    · subst h2
      simp [lookupA] at h
      subst h
      have hrest : lookupA rest a = none := lookupA_eq_none_of_not_mem rest a hn.1
      calc lookupA (dictUpdate d ((a, b) :: rest)) a
          = lookupA (dictUpdate (setA d a b) rest) a := by simp [dictUpdate]
        _ = lookupA (setA d a b) a := lookupA_dictUpdate_none (setA d a b) rest a hrest
        _ = some b := lookupA_setA_self d a b
    · simp only [lookupA, h2, if_false] at h
      calc lookupA (dictUpdate d ((a, b) :: rest)) k
          = lookupA (dictUpdate (setA d a b) rest) k := by simp [dictUpdate]
        _ = some v := ih (setA d a b) hn.2 h

/-! ### Claim C2 -/

/-- C2 (code bug, evaluation at the failing input): array artifacts save as
claimed (a 3-D array with last dimension in 1/3/4 becomes a png with loader
image, any other array an npy with loader np, any non-array non-string raises
the unsupported-type error), but saving a string never succeeds: the
`return txt_saver, "txt"` branch of `determine_saver` reads the undefined
global `txt_saver` and raises `NameError`, and even the txt extension itself
has no loader (`determine_loader` raises `ValueError` on txt), so
`save_example` on a string datum fails instead of writing the text and
returning a loader name. -/
theorem C2_artifact_saving_evaluation :
    determine_saver (Datum.str (pstr "hello")) = .error .nameError
    ∧ save_example (savename_base (pstr "text") 0) (Datum.str (pstr "hello")) = .error .nameError
    ∧ determine_loader (pstr "txt") = .error .valueError
    ∧ save_example (savename_base (pstr "image") 3) (Datum.arr [8, 8, 3])
        = .ok (pstr "image_000003.png", pstr "image", (pstr "image_000003.png", .image_saver))
    ∧ save_example (savename_base (pstr "z") 3) (Datum.arr [5])
        = .ok (pstr "z_000003.npy", pstr "np", (pstr "z_000003.npy", .np_saver))
    ∧ determine_saver (Datum.other (pstr "int")) = .error .notImplementedError :=
  ⟨rfl, rfl, rfl, rfl, rfl, rfl⟩

/-! ### Claim C3 -/

/-- C3: writing one batch of two examples with indices 3 and 7, an image
field of two 8x8x3 arrays, and partition key label with values cat and dog
creates exactly the files out/label:cat/image_000003.png and
out/label:dog/image_000007.png, returns the path map keyed image:image for
both indices, and leaves the example with the label field deleted, so the
partition field is never stored as an artifact. -/
theorem C3_output_writer_paths :
    save_output (pstr "out")
      [(pstr "step_ops", RVal.ex
        [(pstr "image", [Datum.arr [8, 8, 3], Datum.arr [8, 8, 3]]),
         (pstr "label", [Datum.str (pstr "cat"), Datum.str (pstr "dog")])])]
      [3, 7] [pstr "label"] (pstr "step_ops")
    = .ok ⟨[(3, [(pstr "image:image", pstr "out/label:cat/image_000003.png")]),
            (7, [(pstr "image:image", pstr "out/label:dog/image_000007.png")])],
           [(pstr "out/label:cat/image_000003.png", .image_saver),
            (pstr "out/label:dog/image_000007.png", .image_saver)],
           [(pstr "image", [Datum.arr [8, 8, 3], Datum.arr [8, 8, 3]])]⟩ := rfl

/-! ### Claim C5 -/

/-- C5: on `at_exception`, the run descriptor is written, marked incomplete,
together with the logged warning exactly when the epoch progressed far enough
that the output root exists; already-written artifacts and label-array
contents are untouched.  (The hook installs no exception handler, so the
in-flight exception propagates in the external loop; only the descriptor and
log behaviour is a property of this function.) -/
theorem C5_failure_finalization :
    ∀ s : EHState,
      (((at_exception s).metaWrites ≠ [] ∧ (at_exception s).warningLogged = true)
        ↔ s.hasRoot = true)
      ∧ (s.hasRoot = true → (at_exception s).metaWrites = [⟨true⟩])
      ∧ (at_exception s).state.artifacts = s.artifacts
      ∧ (at_exception s).state.labelArrs = s.labelArrs := by
  intro s
  rcases s with ⟨hr, eo, mf, ar, la⟩
  cases hr <;> simp [at_exception, save_meta_file]

/-! ### Claim C6 -/

/-- C6 (counterexample): with the same name in the explicitly passed
callbacks and the config-embedded ones, the merged dict holds the config
entry, not the explicit one, contradicting the claim that the explicitly
passed callback is the one used. -/
theorem C6_counterexample :
    lookupA (update_callbacks [(pstr "name", pstr "explicit.cb")]
      [(pstr "name", pstr "config.cb")]) (pstr "name") = some (pstr "config.cb")
    ∧ pstr "config.cb" ≠ pstr "explicit.cb" := by
  exact ⟨rfl, by decide⟩

/-- C6 (amended): the merge runs `callbacks.update(config_cbs)` in both
`EvalHook.__init__` and `standalone_eval_meta_dset`, so on a name collision
the callback embedded in the config takes precedence over the explicitly
passed one; names present only in the explicit dict are kept. -/
theorem C6_config_callbacks_take_precedence :
    ∀ (explicit config_cbs : List (PyStr × PyStr)) (k : PyStr),
      ((config_cbs.map Prod.fst).Nodup →
        ∀ v, lookupA config_cbs k = some v →
          lookupA (update_callbacks explicit config_cbs) k = some v)
      ∧ (lookupA config_cbs k = none →
          lookupA (update_callbacks explicit config_cbs) k = lookupA explicit k) := by
  intro explicit config_cbs k
  exact ⟨fun hn v hv => lookupA_dictUpdate_some explicit config_cbs k v hn hv,
         fun h => lookupA_dictUpdate_none explicit config_cbs k h⟩

/-- Witness for C6: the amended precedence applied at a concrete collision. -/
theorem C6_witness :
    lookupA (update_callbacks [(pstr "k", pstr "explicit.cb")] [(pstr "k", pstr "config.cb")])
      (pstr "k") = some (pstr "config.cb") :=
  (C6_config_callbacks_take_precedence [(pstr "k", pstr "explicit.cb")]
    [(pstr "k", pstr "config.cb")] (pstr "k")).1 (by decide) (pstr "config.cb") (by decide)

/-! ### List set/get lemmas -/

theorem lget_set_self {α : Type} : ∀ (l : List α) (i : Nat) (v : α), i < l.length →
    (l.set i v).get? i = some v
  | [], i, v, h => absurd h (by simp)
  | x :: xs, 0, v, _ => rfl
  | x :: xs, i + 1, v, h => lget_set_self xs i v (by simpa using h)

theorem lget_set_ne {α : Type} : ∀ (l : List α) (i j : Nat) (v : α), i ≠ j →
    (l.set i v).get? j = l.get? j
  | [], _, _, _, _ => rfl
  | x :: xs, 0, 0, v, h => absurd rfl h
  | x :: xs, 0, j + 1, v, _ => rfl
  | x :: xs, i + 1, 0, v, _ => rfl
  | x :: xs, i + 1, j + 1, v, h => lget_set_ne xs i j v (fun hq => h (by simp [hq]))

theorem arrDtype_set (arr : List LVal) (idx : Nat) (v : LVal) (h : idx < arr.length)
    (hd : arrDtype arr = some v.dtype) : arrDtype (arr.set idx v) = arrDtype arr := by
  cases arr with
  | nil => simp at h
  | cons x xs =>
    cases idx with
    | zero =>
      simp only [arrDtype, List.set, List.head?, Option.map] at hd ⊢
      exact congrArg some (Option.some.injEq _ _ ▸ hd).symm
    | succ i => simp [arrDtype, List.set]

/-! ### The write loop of the label aggregator -/

theorem writeSeqAux_spec :
    ∀ (rest : List Nat) (vals : List LVal) (arr : List LVal) (i : Nat),
      i + rest.length ≤ vals.length →
      rest.Nodup →
      (∀ idx ∈ rest, idx < arr.length) →
      (∀ v ∈ vals, arrDtype arr = some v.dtype) →
      ∃ arr', writeSeqAux vals arr i rest = .ok arr'
        ∧ arr'.length = arr.length
        ∧ arrDtype arr' = arrDtype arr
        ∧ (∀ j (hj : j < rest.length), arr'.get? (rest.get ⟨j, hj⟩) = vals.get? (i + j))
        ∧ (∀ p, p ∉ rest → arr'.get? p = arr.get? p) := by
  intro rest
  induction rest with
  | nil =>
    intro vals arr i _ _ _ _
    exact ⟨arr, rfl, rfl, rfl, fun j hj => absurd hj (Nat.not_lt_zero j), fun p _ => rfl⟩
  | cons idx rest ih =>
    intro vals arr i h1 h2 h3 h4
    have hi : i < vals.length := by simp only [List.length_cons] at h1; omega
    obtain ⟨v, hv⟩ : ∃ v, vals.get? i = some v := ⟨vals.get ⟨i, hi⟩, List.get?_eq_get hi⟩
    have hidx : idx < arr.length := h3 idx (List.mem_cons_self _ _)
    have hdt : arrDtype arr = some v.dtype := h4 v (List.get?_mem hv)
    have hset : setSlot arr idx v = .ok (arr.set idx v) := by simp [setSlot, hidx, hdt]
    have hstep : writeSeqAux vals arr i (idx :: rest) = writeSeqAux vals (arr.set idx v) (i + 1) rest := by
      simp only [writeSeqAux, hv, hset]
    have h2' := List.nodup_cons.mp h2
    obtain ⟨arr', ha, hlen, hdty, hwrite, hsame⟩ :=
      ih vals (arr.set idx v) (i + 1)
        (by simp only [List.length_cons] at h1; omega)
        h2'.2
        (fun q hq => by rw [List.length_set]; exact h3 q (List.mem_cons_of_mem _ hq))
        (fun w hw => by rw [arrDtype_set arr idx v hidx hdt]; exact h4 w hw)
    refine ⟨arr', hstep.trans ha, hlen.trans (by simp),
      hdty.trans (arrDtype_set arr idx v hidx hdt), ?_, ?_⟩
    · intro j hj
      cases j with
      | zero =>
        have hu : arr'.get? idx = (arr.set idx v).get? idx := hsame idx h2'.1
        show arr'.get? idx = vals.get? (i + 0)
        rw [hu, lget_set_self arr idx v hidx, Nat.add_zero, hv]
      | succ j' =>
        have hj' : j' < rest.length := by simpa using hj
        have hq := hwrite j' hj'
        show arr'.get? (rest.get ⟨j', hj'⟩) = vals.get? (i + (j' + 1))
        rw [show i + (j' + 1) = i + 1 + j' by omega]
        exact hq
    · intro p hp
      have hp1 : p ≠ idx := fun hq => hp (hq ▸ List.mem_cons_self _ _)
      have hp2 : p ∉ rest := fun hq => hp (List.mem_cons_of_mem _ hq)
      rw [hsame p hp2, lget_set_ne arr idx p v (Ne.symm hp1)]

/-! ### The allocation pass -/

theorem allocFold_spec (dsLen : Nat) (save_root : PyStr) :
    ∀ (lv : List (PyStr × List LVal)) (acc : List (PyStr × List LVal) × List PyStr)
      (A : List (PyStr × List LVal)) (N : List PyStr),
      List.foldlM
        (fun acc kv =>
          match kv.2.head? with
          | none => Except.error PyErr.indexError
          | some v0 =>
            Except.ok (acc.1 ++ [(kv.1, List.replicate dsLen (LVal.dtype v0).zero)],
                       acc.2 ++ [mmapName save_root kv.1 dsLen v0.dtype]))
        acc lv = .ok (A, N) →
      A = acc.1 ++ lv.map (fun kv => (kv.1, List.replicate dsLen (headDtype kv.2).zero))
      ∧ N = acc.2 ++ lv.map (fun kv => mmapName save_root kv.1 dsLen (headDtype kv.2)) := by
  intro lv
  induction lv with
  | nil =>
    intro acc A N h
    simp only [List.foldlM_nil] at h
    cases h
    simp
  | cons kv rest ih =>
    intro acc A N h
    simp only [List.foldlM_cons] at h
    cases hh : kv.2.head? with
    | none =>
      rw [hh] at h
      simp [bind, Except.bind] at h
    | some v0 =>
      rw [hh] at h
      simp only [bind, Except.bind] at h
      obtain ⟨hA, hN⟩ := ih _ A N h
      constructor
      · rw [hA]
        simp [headDtype, hh, List.append_assoc]
      · rw [hN]
        simp [headDtype, hh, List.append_assoc]

theorem label_write_missing_field :
    ∀ (lv : List (PyStr × List LVal)) (arrs : List (PyStr × List LVal)) (idxs : List Nat),
      (∃ k ∈ lv.map Prod.fst, lookupA arrs k = none) →
      ∃ e, label_write arrs lv idxs = .error e := by
  intro lv
  induction lv with
  | nil =>
    intro arrs idxs h
    obtain ⟨k, hk, _⟩ := h
    simp at hk
  | cons kv rest ih =>
    intro arrs idxs h
    obtain ⟨k, hk, hnone⟩ := h
    cases hlook : lookupA arrs kv.1 with
    | none =>
      refine ⟨.keyError, ?_⟩
      simp [label_write, List.foldlM_cons, hlook, bind, Except.bind]
    | some arr =>
      cases hw : writeSeq arr kv.2 idxs with
      | error e =>
        refine ⟨e, ?_⟩
        simp [label_write, List.foldlM_cons, hlook, hw, bind, Except.bind]
      | ok arr' =>
        have hkne : k ≠ kv.1 := fun hq => by rw [hq, hlook] at hnone; exact Option.noConfusion hnone
        have hkcases : k = kv.1 ∨ k ∈ rest.map Prod.fst := by
          simpa only [List.map_cons, List.mem_cons] using hk
        have hk' : k ∈ rest.map Prod.fst := by
          rcases hkcases with h1 | h1
          · exact absurd h1 hkne
          · exact h1
        obtain ⟨e, he⟩ := ih (setA arrs kv.1 arr') idxs
          ⟨k, hk', by rw [lookupA_setA_ne arrs k kv.1 arr' (Ne.symm hkne)]; exact hnone⟩
        refine ⟨e, ?_⟩
        simpa [label_write, List.foldlM_cons, hlook, hw, bind, Except.bind] using he

/-! ### Claim C9 -/

/-- C9: `after_step` requires a non-empty index batch: whatever the hook
state and step results, when the captured index batch is empty the call
raises `IndexError` (from indexing the first captured index when rebuilding
the path-dict keys) instead of completing as a no-op.  The hypotheses say
only that the steps preceding that indexing succeed: the label pop finds a
label mapping (or no labels key is configured) and the results hold the
example mapping behind the keypath. -/
theorem C9_empty_batch_raises :
    ∀ (lk : Option PyStr) (keypath save_root : PyStr) (dsLen : Nat)
      (label_arrs : Option (List (PyStr × List LVal))) (results : List (PyStr × RVal))
      (lv : List (PyStr × List LVal)) (results' : List (PyStr × RVal)) (ex : Example),
      popLabels lk results = .ok (lv, results') →
      lookupA results' keypath = some (RVal.ex ex) →
      after_step ⟨lk, keypath, [], dsLen, save_root⟩ label_arrs results [] = .error .indexError := by
  intro lk keypath save_root dsLen label_arrs results lv results' ex h1 h2
  simp [after_step, h1, save_output, retrieveEx, h2, applySubKeys, writeExamples, mergePaths,
    pure, Except.pure]

/-- Witness for C9: the empty-batch error at a concrete hook state. -/
theorem C9_witness :
    after_step ⟨none, pstr "step_ops", [], 10, pstr "out"⟩ none
      [(pstr "step_ops", RVal.ex [(pstr "image", [])])] [] = .error .indexError :=
  C9_empty_batch_raises none (pstr "step_ops") (pstr "out") 10 none
    [(pstr "step_ops", RVal.ex [(pstr "image", [])])] []
    [(pstr "step_ops", RVal.ex [(pstr "image", [])])] [(pstr "image", [])] rfl rfl

/-! ### Claim C1 -/

/-- C1: the write loop of the label aggregator stores `value[i]` into the
label array at slot `indices[i]` for every position `i` of the batch (for
distinct in-range indices and matching dtypes), leaving all other slots
untouched; and the concrete scenario: ingesting field score with values
one-half and nine-tenths at indices 3 and 7 on the first call of a
length-10 run allocates a length-10 zero-filled array backed by the file
out/labels/score-*-10-*-float64.npy with slot 3 holding one-half, slot 7
nine-tenths, and slot 0 still the allocation-time fill value zero. -/
theorem C1_index_aligned_label_ingestion :
    (∀ (arr vals : List LVal) (idxs : List Nat),
      idxs.Nodup →
      (∀ idx ∈ idxs, idx < arr.length) →
      vals.length = idxs.length →
      (∀ v ∈ vals, arrDtype arr = some v.dtype) →
      ∃ arr', writeSeq arr vals idxs = .ok arr'
        ∧ (∀ j (hj : j < idxs.length), arr'.get? (idxs.get ⟨j, hj⟩) = vals.get? j)
        ∧ (∀ p, p ∉ idxs → arr'.get? p = arr.get? p))
    ∧ after_step ⟨some (pstr "labels"), pstr "step_ops", [], 10, pstr "out"⟩ none
        [(pstr "step_ops", RVal.ex []),
         (pstr "labels", RVal.labels [(pstr "score", [LVal.num (1/2), LVal.num (9/10)])])]
        [3, 7]
      = .ok ⟨[(pstr "score",
               [LVal.num 0, LVal.num 0, LVal.num 0, LVal.num (1/2), LVal.num 0, LVal.num 0,
                LVal.num 0, LVal.num (9/10), LVal.num 0, LVal.num 0])],
             [pstr "out/labels/score-*-10-*-float64.npy"], [], [(3, []), (7, [])]⟩ := by
  constructor
  · intro arr vals idxs hnd hlt hlen hdt
    obtain ⟨arr', ha, _, _, hw, hs⟩ :=
      writeSeqAux_spec idxs vals arr 0 (by omega) hnd hlt hdt
    exact ⟨arr', ha, fun j hj => by simpa using hw j hj, hs⟩
  · rfl

/-- Witness for C1: the write property applied to a concrete two-slot array. -/
theorem C1_witness :
    ∃ arr', writeSeq [LVal.num 0, LVal.num 0] [LVal.num 5] [1] = .ok arr'
      ∧ (∀ j (hj : j < [1].length), arr'.get? ([1].get ⟨j, hj⟩) = [LVal.num 5].get? j)
      ∧ (∀ p, p ∉ [1] → arr'.get? p = [LVal.num 0, LVal.num 0].get? p) :=
  C1_index_aligned_label_ingestion.1 [LVal.num 0, LVal.num 0] [LVal.num 5] [1]
    (by decide) (by decide) (by decide) (by decide)

/-! ### Claim C4 -/

/-- C4 (counterexample): a field that first appears in a batch later than
the first one is not lazily allocated; the write loop looks the field up in
the arrays allocated at the first batch and raises `KeyError`.  Here the
first batch allocated only field a, and the second batch carries fields a
and b. -/
theorem C4_counterexample :
    after_step ⟨some (pstr "labels"), pstr "step_ops", [], 10, pstr "out"⟩
      (some [(pstr "a", List.replicate 10 (LVal.num 0))])
      [(pstr "step_ops", RVal.ex []),
       (pstr "labels", RVal.labels [(pstr "a", [LVal.num 1]), (pstr "b", [LVal.num 2])])]
      [0]
    = .error .keyError := rfl

/-- C4 (amended): label arrays are allocated only on the first
`after_step` call of the run and exactly for the fields of that call: a successful
allocation returns one dataset-length zero-filled array per field of the
batch, with the backing file name embedding field, shape and dtype of the
first observed value; on later batches a field first appearing then is never
allocated, the call errors out instead; fields already allocated are written
in place. -/
theorem C4_first_batch_allocation :
    (∀ (dsLen : Nat) (save_root : PyStr) (lv : List (PyStr × List LVal))
      (A : List (PyStr × List LVal)) (N : List PyStr),
      allocate_arrays dsLen save_root lv = .ok (A, N) →
      A = lv.map (fun kv => (kv.1, List.replicate dsLen (headDtype kv.2).zero))
      ∧ N = lv.map (fun kv => mmapName save_root kv.1 dsLen (headDtype kv.2)))
    ∧ (∀ (arrs lv : List (PyStr × List LVal)) (idxs : List Nat),
      (∃ k ∈ lv.map Prod.fst, lookupA arrs k = none) →
      ∃ e, label_write arrs lv idxs = .error e)
    ∧ label_write [(pstr "a", [LVal.num 0, LVal.num 0])] [(pstr "a", [LVal.num 5])] [1]
      = .ok [(pstr "a", [LVal.num 0, LVal.num 5])] := by
  refine ⟨?_, ?_, rfl⟩
  · intro dsLen save_root lv A N h
    have := allocFold_spec dsLen save_root lv ([], []) A N h
    simpa using this
  · intro arrs lv idxs h
    exact label_write_missing_field lv arrs idxs h

/-- Witness for C4: the amended behaviour at concrete inputs, on both the
missing-field error and the first-batch allocation shape. -/
theorem C4_witness :
    (∃ e, label_write [] [(pstr "b", [LVal.num 1])] [0] = .error e)
    ∧ [(pstr "s", [LVal.num 0, LVal.num 0])]
      = [(pstr "s", [LVal.num 3])].map
          (fun kv : PyStr × List LVal => (kv.1, List.replicate 2 (headDtype kv.2).zero)) :=
  ⟨C4_first_batch_allocation.2.1 [] [(pstr "b", [LVal.num 1])] [0] ⟨pstr "b", by decide, rfl⟩,
   (C4_first_batch_allocation.1 2 (pstr "out") [(pstr "s", [LVal.num 3])]
     [(pstr "s", [LVal.num 0, LVal.num 0])]
     [mmapName (pstr "out") (pstr "s") 2 LDtype.float64] rfl).1⟩

/-! ### Claim C8 -/

theorem tStep_inactive (s : TState) (e : TEvent) (hact : s.active = false)
    (he : e ≠ TEvent.beforeEpoch) : tStep s e = s := by
  rcases s with ⟨a, sc⟩
  simp only at hact
  subst hact
  cases e with
  | beforeEpoch => exact absurd rfl he
  | beforeStep => simp [tStep]
  | afterStep v => cases hv : isNoneOrMissing v <;> simp [tStep, hv]
  | afterEpoch => simp [tStep]
  | atException => simp [tStep]

/-- C8: once `after_step` of a `TemplateEvalHook` sees a step result whose
value at the configured keypath is missing or None, the hook is inactive and
stays so for the rest of the epoch: any following sequence of lifecycle calls
that does not include `before_epoch` leaves the state (and in particular the
trace of delegated parent calls, which carry all writes, callback runs and
descriptor finalisation) completely unchanged; `before_epoch` reactivates
the hook. -/
theorem C8_template_hook_deactivation :
    (∀ (s : TState) (v : Option (Option Unit)),
      isNoneOrMissing v = true → (tStep s (.afterStep v)).active = false)
    ∧ (∀ (s : TState) (evs : List TEvent),
      s.active = false → (∀ e ∈ evs, e ≠ TEvent.beforeEpoch) → tRun s evs = s)
    ∧ (∀ s : TState, (tStep s .beforeEpoch).active = true) := by
  refine ⟨?_, ?_, fun s => rfl⟩
  · intro s v h
    simp [tStep, h]
  · intro s evs
    induction evs generalizing s with
    | nil => intro _ _; rfl
    | cons e evs ih =>
      intro hact he
      have h1 : tStep s e = s := tStep_inactive s e hact (he e (List.mem_cons_self _ _))
      show tRun (tStep s e) evs = s
      rw [h1]
      exact ih s hact (fun q hq => he q (List.mem_cons_of_mem _ hq))

/-- Witness for C8: a concrete deactivation and a concrete post-deactivation
event sequence (including a later well-formed step result) that leaves the
state untouched. -/
theorem C8_witness :
    (tStep ⟨true, []⟩ (.afterStep none)).active = false
    ∧ tRun ⟨false, [SuperCall.afterStep]⟩
        [TEvent.beforeStep, TEvent.afterStep (some (some ())), TEvent.afterEpoch,
         TEvent.atException]
      = ⟨false, [SuperCall.afterStep]⟩ :=
  ⟨C8_template_hook_deactivation.1 ⟨true, []⟩ none rfl,
   C8_template_hook_deactivation.2.1 ⟨false, [SuperCall.afterStep]⟩
     [TEvent.beforeStep, TEvent.afterStep (some (some ())), TEvent.afterEpoch,
      TEvent.atException] rfl (by decide)⟩

/-! ### Decimal digit lemmas -/

theorem digitChar_isDigit : ∀ d < 10, (Nat.digitChar d).isDigit = true := by decide

theorem digitChar_val : ∀ d < 10, (Nat.digitChar d).toNat - 48 = d := by decide

theorem natCharsAux_all_digits :
    ∀ (fuel n : Nat), ∀ c ∈ natCharsAux fuel n, c.isDigit = true := by
  intro fuel
  induction fuel with
  | zero => intro n c hc; simp [natCharsAux] at hc
  | succ fuel ih =>
    intro n c hc
    by_cases hn : n = 0
    · simp [natCharsAux, hn] at hc
    · simp only [natCharsAux, hn, if_false] at hc
      rcases List.mem_append.mp hc with h1 | h1
      · exact ih (n / 10) c h1
      · have hc2 : c = Nat.digitChar (n % 10) := by simpa using h1
        subst hc2
        exact digitChar_isDigit (n % 10) (Nat.mod_lt n (by norm_num))

theorem natCharsAux_foldl :
    ∀ (fuel n a : Nat), n ≤ fuel →
      (natCharsAux fuel n).foldl (fun a c => a * 10 + (c.toNat - 48)) a
        = a * 10 ^ (natCharsAux fuel n).length + n := by
  intro fuel
  induction fuel with
  | zero =>
    intro n a h
    have hn : n = 0 := by omega
    subst hn
    simp [natCharsAux]
  | succ fuel ih =>
    intro n a h
    by_cases hn : n = 0
    · subst hn; simp [natCharsAux]
    · have hlt : n / 10 < n := Nat.div_lt_self (Nat.pos_of_ne_zero hn) (by norm_num)
      have hfu : n / 10 ≤ fuel := by omega
      simp only [natCharsAux, hn, if_false, List.foldl_append, List.foldl_cons, List.foldl_nil,
        List.length_append, List.length_cons, List.length_nil]
      rw [ih (n / 10) a hfu]
      rw [digitChar_val (n % 10) (Nat.mod_lt n (by norm_num))]
      have hdm : 10 * (n / 10) + n % 10 = n := Nat.div_add_mod n 10
      have hstep : (a * 10 ^ (natCharsAux fuel (n / 10)).length + n / 10) * 10 + n % 10
          = a * (10 ^ (natCharsAux fuel (n / 10)).length * 10) + (10 * (n / 10) + n % 10) := by
        ring
      rw [Nat.zero_add, hstep, hdm, ← pow_succ]

theorem natCharsAux_length_le :
    ∀ (fuel n k : Nat), n ≤ fuel → n < 10 ^ k → (natCharsAux fuel n).length ≤ k := by
  intro fuel
  induction fuel with
  | zero =>
    intro n k h _
    have hn : n = 0 := by omega
    subst hn
    simp [natCharsAux]
  | succ fuel ih =>
    intro n k hf hk
    by_cases hn : n = 0
    · subst hn; simp [natCharsAux]
    · simp only [natCharsAux, hn, if_false, List.length_append, List.length_cons,
        List.length_nil]
      have hk1 : 1 ≤ k := by
        by_contra h0
        have hk0 : k = 0 := by omega
        rw [hk0, pow_zero] at hk
        omega
      have hdiv : n / 10 < 10 ^ (k - 1) := by
        rw [Nat.div_lt_iff_lt_mul (by norm_num : (0 : ℕ) < 10)]
        calc n < 10 ^ k := hk
          _ = 10 ^ (k - 1) * 10 := by
              rw [← pow_succ]
              congr 1
              omega
      have hfu : n / 10 ≤ fuel := by
        have : n / 10 < n := Nat.div_lt_self (Nat.pos_of_ne_zero hn) (by norm_num)
        omega
      have := ih (n / 10) (k - 1) hfu hdiv
      omega

theorem format06_all_digits (n : Nat) : ∀ c ∈ format06 n, c.isDigit = true := by
  intro c hc
  rcases List.mem_append.mp hc with h1 | h1
  · rw [List.eq_of_mem_replicate h1]
    decide
  · exact natCharsAux_all_digits n n c h1

theorem format06_ne_nil (n : Nat) : format06 n ≠ [] := by
  have hlen : (format06 n).length
      = (6 - (natToChars n).length) + (natToChars n).length := by
    simp [format06]
  intro h0
  rw [h0] at hlen
  simp only [List.length_nil] at hlen
  omega

theorem foldl_repl_zeros :
    ∀ (k : Nat) (s : PyStr),
      (List.replicate k '0' ++ s).foldl (fun a c => a * 10 + (c.toNat - 48)) 0
        = s.foldl (fun a c => a * 10 + (c.toNat - 48)) 0 := by
  intro k
  induction k with
  | zero => intro s; simp
  | succ k ih =>
    intro s
    simp only [List.replicate_succ, List.cons_append, List.foldl_cons]
    have h0 : (0 : Nat) * 10 + (Char.toNat '0' - 48) = 0 := by decide
    rw [h0]
    exact ih s

theorem toNatC_format06 (n : Nat) : toNatC (format06 n) = some n := by
  have hall : (format06 n).all Char.isDigit = true := by
    rw [List.all_eq_true]
    intro c hc
    exact format06_all_digits n c hc
  unfold toNatC
  rw [if_pos ⟨format06_ne_nil n, hall⟩]
  congr 1
  unfold format06
  rw [foldl_repl_zeros]
  have := natCharsAux_foldl n n 0 (le_refl n)
  rw [show natToChars n = natCharsAux n n from rfl, this, Nat.zero_mul, Nat.zero_add]

/-! ### Split and join lemmas -/

theorem splitOnC_ne_nil (c : Char) : ∀ s : PyStr, splitOnC c s ≠ []
  | [] => by simp [splitOnC]
  | x :: xs => by by_cases h : x = c <;> simp [splitOnC, h]

theorem splitOnC_not_mem (c : Char) : ∀ s : PyStr, c ∉ s → splitOnC c s = [s] := by
  intro s
  induction s with
  | nil => intro _; rfl
  | cons x xs ih =>
    intro h
    have hx : ¬ x = c := fun hq => h (by rw [hq]; exact List.mem_cons_self _ _)
    have hxs : c ∉ xs := fun hq => h (List.mem_cons_of_mem _ hq)
    simp [splitOnC, hx, ih hxs]

theorem splitOnC_cons_of_ne_shape (c : Char) (s : PyStr) :
    ∃ h0 t0, splitOnC c s = h0 :: t0 := by
  cases hq : splitOnC c s with
  | nil => exact absurd hq (splitOnC_ne_nil c s)
  | cons h0 t0 => exact ⟨h0, t0, rfl⟩

theorem splitOnC_append (c : Char) :
    ∀ (a b : PyStr), splitOnC c (a ++ c :: b) = splitOnC c a ++ splitOnC c b := by
  intro a
  induction a with
  | nil => intro b; simp [splitOnC]
  | cons x a ih =>
    intro b
    by_cases h : x = c
    · simp [splitOnC, h, ih]
    · obtain ⟨h0, t0, hsplit⟩ := splitOnC_cons_of_ne_shape c a
      simp [splitOnC, h, ih, hsplit]

theorem joinC_splitOnC (c : Char) : ∀ s : PyStr, joinC c (splitOnC c s) = s := by
  intro s
  induction s with
  | nil => rfl
  | cons x xs ih =>
    obtain ⟨h0, t0, hsplit⟩ := splitOnC_cons_of_ne_shape c xs
    by_cases h : x = c
    · subst h
      simp only [splitOnC, if_pos rfl]
      rw [hsplit]
      show joinC x ([] :: h0 :: t0) = x :: xs
      have hj : joinC x ([] :: h0 :: t0) = [] ++ x :: joinC x (h0 :: t0) := rfl
      rw [hj, List.nil_append, ← hsplit, ih]
    · simp only [splitOnC, h, if_false]
      rw [hsplit]
      simp only [List.headD, List.tail]
      cases t0 with
      | nil =>
        show joinC c [x :: h0] = x :: xs
        have hx : joinC c [h0] = h0 := rfl
        have hxs : h0 = xs := by rw [← ih, hsplit, hx]
        simp [joinC, hxs]
      | cons u t1 =>
        show joinC c ((x :: h0) :: u :: t1) = x :: xs
        have hj : joinC c ((x :: h0) :: u :: t1) = (x :: h0) ++ c :: joinC c (u :: t1) := rfl
        have hj2 : joinC c (h0 :: u :: t1) = h0 ++ c :: joinC c (u :: t1) := rfl
        rw [hj]
        have hxs : joinC c (h0 :: u :: t1) = xs := by rw [← hsplit, ih]
        rw [← hxs, hj2]
        simp

theorem splitOnC_length (c : Char) : ∀ s : PyStr, (splitOnC c s).length = s.count c + 1 := by
  intro s
  induction s with
  | nil => simp [splitOnC]
  | cons x xs ih =>
    by_cases h : x = c
    · subst h
      simp [splitOnC, List.count_cons, ih]
    · obtain ⟨h0, t0, hsplit⟩ := splitOnC_cons_of_ne_shape c xs
      rw [hsplit] at ih
      simp [splitOnC, h, hsplit, List.count_cons, Ne.symm h, ← ih]

theorem count_pos_iff_mem (c : Char) : ∀ s : PyStr, 0 < s.count c ↔ c ∈ s := by
  intro s
  induction s with
  | nil => simp
  | cons x xs ih =>
    rw [List.count_cons]
    by_cases hx : x = c
    · simp [hx]
    · simp [hx, Ne.symm hx, ih]

/-! ### Claim C7 -/

/-- C7: path-encoding round trip.  For every field name, every index below
one million, and every extension free of underscores and dots (the encoded
name would otherwise be ambiguous), decomposing the encoded artifact name
field-underscore-zero-filled-index-dot-extension yields exactly the index,
the field and the extension.  (The field may even contain underscores and
dots: the index block between the last underscore and the final dot is
digits-only, so the rejoin recovers the field exactly.) -/
theorem C7_path_encoding_round_trip :
    ∀ (field : PyStr) (idx : Nat) (ext : PyStr),
      idx < 10 ^ 6 → '_' ∉ ext → '.' ∉ ext →
      decompose_name (encode_name field idx ext) = .ok (idx, field, ext) := by
  intro field idx ext _ hu hd
  have henc : encode_name field idx ext = field ++ '_' :: (format06 idx ++ '.' :: ext) := by
    simp [encode_name, savename_base]
  have hrest_u : '_' ∉ format06 idx ++ '.' :: ext := by
    intro hmem
    rcases List.mem_append.mp hmem with h1 | h1
    · exact absurd (format06_all_digits idx _ h1) (by decide)
    · rcases List.mem_cons.mp h1 with h2 | h2
      · exact absurd h2 (by decide)
      · exact hu h2
  have hsplit1 : splitOnC '_' (encode_name field idx ext)
      = splitOnC '_' field ++ [format06 idx ++ '.' :: ext] := by
    rw [henc, splitOnC_append, splitOnC_not_mem '_' _ hrest_u]
  have hdig_d : '.' ∉ format06 idx := fun hmem =>
    absurd (format06_all_digits idx _ hmem) (by decide)
  have hsplit2 : splitOnC '.' (format06 idx ++ '.' :: ext) = [format06 idx, ext] := by
    rw [splitOnC_append, splitOnC_not_mem '.' _ hdig_d, splitOnC_not_mem '.' ext hd]
    rfl
  unfold decompose_name
  rw [hsplit1, List.getLast?_concat, List.dropLast_concat, joinC_splitOnC]
  simp only [hsplit2, toNatC_format06]

/-- Witness for C7: the round trip at a concrete field with an underscore,
a concrete index and the png extension. -/
theorem C7_witness :
    decompose_name (encode_name (pstr "my_field") 12 (pstr "png"))
      = .ok (12, pstr "my_field", pstr "png") :=
  C7_path_encoding_round_trip (pstr "my_field") 12 (pstr "png")
    (by norm_num) (by decide) (by decide)

/-! ### Claim C10 -/

/-- C10: for a file name with at most one dot, `is_loadable` answers true
exactly when the name is stem-dot-extension with the extension among png and
npy and the stem containing exactly one underscore (so a field name that
itself contains an underscore makes the artifact not loadable); a file name
with more than one dot makes `is_loadable` raise `ValueError` instead of
answering. -/
theorem C10_is_loadable_characterization :
    ∀ f : PyStr,
      (f.count '.' ≤ 1 →
        (is_loadable f = .ok true ↔
          ∃ stem ext, f = stem ++ '.' :: ext ∧ ext ∈ LOADABLE_EXTS ∧ stem.count '_' = 1))
      ∧ (1 < f.count '.' → is_loadable f = .error .valueError) := by
  intro f
  constructor
  · intro hle
    constructor
    · intro htrue
      by_cases hdot : '.' ∈ f
      · obtain ⟨a, t, hsp⟩ := splitOnC_cons_of_ne_shape '.' f
        have hlen := splitOnC_length '.' f
        rw [hsp] at hlen
        cases t with
        | nil =>
          exfalso
          have hpos : 0 < f.count '.' := (count_pos_iff_mem '.' f).mpr hdot
          simp only [List.length_cons, List.length_nil] at hlen
          omega
        | cons b t2 =>
          cases t2 with
          | nil =>
            have hload : is_loadable f
                = (if ¬ (b ∈ LOADABLE_EXTS) then .ok false
                   else if a.count '_' ≠ 1 then .ok false else .ok true) := by
              simp only [is_loadable, if_pos hdot, hsp]
            rw [hload] at htrue
            by_cases hb : b ∈ LOADABLE_EXTS
            · by_cases ha : a.count '_' = 1
              · refine ⟨a, b, ?_, hb, ha⟩
                have hjoin : joinC '.' [a, b] = a ++ '.' :: b := rfl
                rw [← joinC_splitOnC '.' f, hsp, hjoin]
              · rw [if_neg (by simpa using hb), if_pos ha] at htrue
                exact absurd htrue (by simp)
            · rw [if_pos (by simpa using hb)] at htrue
              exact absurd htrue (by simp)
          | cons c3 t3 =>
            exfalso
            simp only [List.length_cons] at hlen
            omega
      · unfold is_loadable at htrue
        rw [if_neg hdot] at htrue
        exact absurd htrue (by simp)
    · rintro ⟨stem, ext, rfl, hext, hstem⟩
      have hcnt : (stem ++ '.' :: ext).count '.'
          = stem.count '.' + (ext.count '.' + 1) := by
        simp [List.count_append, List.count_cons]
      have hstem0 : '.' ∉ stem := by
        intro hmem
        have := (count_pos_iff_mem '.' stem).mpr hmem
        omega
      have hext0 : '.' ∉ ext := by
        intro hmem
        have := (count_pos_iff_mem '.' ext).mpr hmem
        omega
      have hsp : splitOnC '.' (stem ++ '.' :: ext) = [stem, ext] := by
        rw [splitOnC_append, splitOnC_not_mem '.' _ hstem0, splitOnC_not_mem '.' _ hext0]
        rfl
      have hdot : '.' ∈ stem ++ '.' :: ext :=
        List.mem_append.mpr (Or.inr (List.mem_cons_self _ _))
      simp only [is_loadable, if_pos hdot, hsp]
      simp [hext, hstem]
  · intro hgt
    have hdot : '.' ∈ f := (count_pos_iff_mem '.' f).mp (by omega)
    obtain ⟨a, t, hsp⟩ := splitOnC_cons_of_ne_shape '.' f
    have hlen := splitOnC_length '.' f
    rw [hsp] at hlen
    cases t with
    | nil =>
      exfalso
      simp only [List.length_cons, List.length_nil] at hlen
      omega
    | cons b t2 =>
      cases t2 with
      | nil =>
        exfalso
        simp only [List.length_cons, List.length_nil] at hlen
        omega
      | cons c3 t3 =>
        simp only [is_loadable, if_pos hdot, hsp]

/-- Witness for C10: the raise on a doubly dotted name and the accepted shape
at a concrete loadable name. -/
theorem C10_witness :
    is_loadable (pstr "a.b.c") = .error .valueError
    ∧ (is_loadable (pstr "a_b.png") = .ok true ↔
        ∃ stem ext, pstr "a_b.png" = stem ++ '.' :: ext
          ∧ ext ∈ LOADABLE_EXTS ∧ stem.count '_' = 1) :=
  ⟨(C10_is_loadable_characterization (pstr "a.b.c")).2 (by decide),
   (C10_is_loadable_characterization (pstr "a_b.png")).1 (by decide)⟩

end EvalPipeline
